import Mathlib

/-!
Verification of the non-allocating coroutine engine (`genawaiter::stack`).

The repository ships the module documentation and doctests of
`src/stack/mod.rs`; the engine itself lives in the submodules
`engine.rs`, `generator.rs` and `iterator.rs`, which are not present in
the sources.  Those parts are therefore modelled from the specification
(its §3 data model, §4.2 Yield Channel, §4.3 Engine algorithm, §4.4
Generator Handle and §4.5 Sequence Adapter), following the spec's own
design note: "represent the producer as an explicit step function
invoked once per resume call; suspension is simply 'return from this
call at this variant'".  The concrete producers (`odds_under_ten`,
`multiples_of`, `multiply`, …) are translated from the doctests in
`src/stack/mod.rs`.
-/

/-- Modelled from the spec: the result of driving the producer one step
(spec §4.3 step 3): the producer either publishes a value `Y` and
suspends in some suspension-point state `σ`, or returns a final value
`C`. -/
inductive StepRes (Y C σ : Type) : Type where
  | yielded : Y → σ → StepRes Y C σ
  | done : C → StepRes Y C σ
  deriving DecidableEq, Repr

/-- Modelled from the spec: a producer computation as an explicit step
function (spec §9 design note).  `start` is what happens when the
producer is driven from its entry point (it never reads a resume
argument, since no suspension point exists yet); `step s r` resumes the
producer at suspension point `s` with resume argument `r` observed as
the value returned from the corresponding `publish`. -/
structure Producer (Y R C σ : Type) : Type where
  start : StepRes Y C σ
  step : σ → R → StepRes Y C σ

/-- Modelled from the spec: the engine's between-calls state (spec §3
Engine State).  `Running` has no representation here because it "holds
only during a resume call and is never observable from outside one". -/
inductive GenCore (σ : Type) : Type where
  | unstarted : GenCore σ
  | suspended : σ → GenCore σ
  | completed : GenCore σ
  deriving DecidableEq, Repr

/-- The four engine states of spec §3. -/
inductive EngineState : Type where
  | Unstarted | Running | Suspended | Completed
  deriving DecidableEq, Repr

/-- Modelled from the spec: the outcome of `Engine::advance`
(spec §4.3): `Yielded(Y) | Completed(C) | ResumedAfterCompletion`. -/
inductive ResumeOutcome (Y C : Type) : Type where
  | Yielded : Y → ResumeOutcome Y C
  | Completed : C → ResumeOutcome Y C
  | ResumedAfterCompletion : ResumeOutcome Y C
  deriving DecidableEq, Repr

/-- `GeneratorState` from the public API (`genawaiter::GeneratorState`,
used by the doctests in `src/stack/mod.rs`): `Yielded(Y)` or
`Complete(C)`. -/
inductive GeneratorState (Y C : Type) : Type where
  | Yielded : Y → GeneratorState Y C
  | Complete : C → GeneratorState Y C
  deriving DecidableEq, Repr

/-- Modelled from the spec: the fatal condition reported by the
Generator Handle when a finished generator is resumed (spec §4.4,
§7). -/
inductive GenError : Type where
  | resumedAfterCompletion
  deriving DecidableEq, Repr

/-- Modelled from the spec: a Generator Handle bound to a producer.
`resumeSlot` is the consumer→producer slot of the Yield Channel
(spec §4.2); it holds a deposited resume argument not yet drained by
the producer.  The producer→consumer slot is always drained within the
same `advance` call, so it is empty between calls and carries no
state here. -/
structure Gen (Y R C σ : Type) : Type where
  producer : Producer Y R C σ
  resumeSlot : Option R
  core : GenCore σ

/-- Modelled from the spec: a freshly constructed generator (spec §3:
`Unstarted`: producer computation not yet begun; no value yet exists in
either slot). -/
def Gen.fresh (p : Producer Y R C σ) : Gen Y R C σ :=
  ⟨p, none, GenCore.unstarted⟩

/-- Modelled from the spec: `Engine::advance` (spec §4.3):
1. if state is `Completed`, fail immediately with
   `ResumedAfterCompletion` — do not touch the producer;
2. deposit the resume argument into the Yield Channel;
3. drive the producer from wherever it last suspended (or from its
   entry point if `Unstarted`);
4. on suspend return `Yielded`, on completion return `Completed`.
From `Unstarted` the entry point never reads the resume slot, so the
deposited argument stays in the slot undrained (spec §4.2 invariant:
the first `deposit_resume` before the producer has ever suspended is
discarded).  From `Suspended` the producer drains the freshly
deposited argument at the `publish` return point. -/
def Gen.advance (g : Gen Y R C σ) (arg : R) : ResumeOutcome Y C × Gen Y R C σ :=
  match g.core with
  | GenCore.completed => (ResumeOutcome.ResumedAfterCompletion, g)
  | GenCore.unstarted =>
      match g.producer.start with
      | StepRes.yielded v s =>
          (ResumeOutcome.Yielded v,
            { g with resumeSlot := some arg, core := GenCore.suspended s })
      | StepRes.done c =>
          (ResumeOutcome.Completed c,
            { g with resumeSlot := some arg, core := GenCore.completed })
  | GenCore.suspended s =>
      match g.producer.step s arg with
      | StepRes.yielded v s' =>
          (ResumeOutcome.Yielded v,
            { g with resumeSlot := none, core := GenCore.suspended s' })
      | StepRes.done c =>
          (ResumeOutcome.Completed c,
            { g with resumeSlot := none, core := GenCore.completed })

/-- Modelled from the spec: `Gen::resume_with` (spec §4.4): delegates
to `Engine::advance`, mapping `Yielded`/`Completed` to the public
result type and converting `ResumedAfterCompletion` into a reported
fatal condition. -/
def Gen.resume_with (g : Gen Y R C σ) (arg : R) :
    Except GenError (GeneratorState Y C) × Gen Y R C σ :=
  match g.advance arg with
  | (ResumeOutcome.Yielded v, g') => (Except.ok (GeneratorState.Yielded v), g')
  | (ResumeOutcome.Completed c, g') => (Except.ok (GeneratorState.Complete c), g')
  | (ResumeOutcome.ResumedAfterCompletion, g') =>
      (Except.error GenError.resumedAfterCompletion, g')

/-- Modelled from the spec: `Gen::resume` (spec §4.4): equivalent to
`resume_with(default-resume-argument)`. -/
def Gen.resume [Inhabited R] (g : Gen Y R C σ) :
    Except GenError (GeneratorState Y C) × Gen Y R C σ :=
  g.resume_with default

/-- The outcomes of driving a generator with the given list of resume
arguments, one `advance` per argument, in order. -/
def Gen.runOutcomes (g : Gen Y R C σ) : List R → List (ResumeOutcome Y C)
  | [] => []
  | a :: as =>
      match g.advance a with
      | (o, g') => o :: g'.runOutcomes as

/-- `YieldsFrom p t vs c` says: the producer `p`, driven from the
intermediate result `t`, publishes exactly the values `vs` in order
and then returns `c`, regardless of the resume arguments supplied at
its suspension points. -/
inductive YieldsFrom (p : Producer Y R C σ) : StepRes Y C σ → List Y → C → Prop where
  | done {c : C} : YieldsFrom p (StepRes.done c) [] c
  | yielded {y : Y} {s : σ} {ys : List Y} {c : C}
      (h : ∀ r : R, YieldsFrom p (p.step s r) ys c) :
      YieldsFrom p (StepRes.yielded y s) (y :: ys) c

/-- The producer yields the finite sequence `vs` and then returns `c`,
for every choice of resume arguments. -/
def Producer.Yields (p : Producer Y R C σ) (vs : List Y) (c : C) : Prop :=
  YieldsFrom p p.start vs c

/-- Modelled from the spec: the Sequence Adapter's one iteration step
(spec §4.5): call `resume()`, map `Yielded y` to `some y` and
`Complete(())` to `none` (end of sequence, discarding the unit value);
once exhausted, repeated iteration attempts yield nothing further. -/
def Gen.next (g : Gen Y Unit Unit σ) : Option Y × Gen Y Unit Unit σ :=
  match g.resume with
  | (Except.ok (GeneratorState.Yielded y), g') => (some y, g')
  | (Except.ok (GeneratorState.Complete _), g') => (none, g')
  | (Except.error _, g') => (none, g')

/-- Drain the Sequence Adapter for at most `fuel` iteration steps,
returning the elements produced (in order) and the generator left
behind. -/
def Gen.drain : Nat → Gen Y Unit Unit σ → List Y × Gen Y Unit Unit σ
  | 0, g => ([], g)
  | fuel + 1, g =>
      match g.next with
      | (some y, g') =>
          match Gen.drain fuel g' with
          | (ys, g'') => (y :: ys, g'')
      | (none, g') => ([], g')

/-- Translated from the `odds_under_ten` doctest in `src/stack/mod.rs`:
`let mut n = 1; while n < 10 { yield_!(n); n += 2; }`.  The suspension
state is the local `n` at the moment of the yield. -/
def odds_under_ten : Producer Nat Unit Unit Nat where
  start := if 1 < 10 then StepRes.yielded 1 1 else StepRes.done ()
  step := fun n _ =>
    let m := n + 2
    if m < 10 then StepRes.yielded m m else StepRes.done ()

/-- Translated from the `numbers_then_string` doctest in
`src/stack/mod.rs`: `yield_!(10); yield_!(20); "done!"`.  The
suspension state counts which yield the producer is parked at. -/
def numbers_then_string : Producer Nat Unit String Nat where
  start := StepRes.yielded 10 1
  step := fun s _ =>
    match s with
    | 1 => StepRes.yielded 20 2
    | _ => StepRes.done "done!"

/-- Two's-complement wrap-around of an unbounded integer into the
`i32` range `[-2147483648, 2147483648)` (that is, `[-2^31, 2^31)`,
reducing modulo `2^32`): the value an `i32` addition produces under
Rust's release-mode wrapping semantics. -/
def wrap32 (x : Int) : Int :=
  (x + 2147483648) % 4294967296 - 2147483648

/-- Translated from the `multiples_of` doctest in `src/stack/mod.rs`:
`async fn multiples_of(num: i32, …)` with
`let mut cur = num; loop { co.yield_(cur).await; cur += num; }`.  The
suspension state is the local `cur`; `num` and `cur` are `i32`, so the
addition `cur += num` wraps into the `i32` range.  `cur = num` itself
performs no arithmetic and is exact. -/
def multiples_of (num : Int) : Producer Int Unit Unit Int where
  start := StepRes.yielded num num
  step := fun cur _ =>
    StepRes.yielded (wrap32 (cur + num)) (wrap32 (cur + num))

/-- Translated from the `multiply` closure-capture doctest in
`src/stack/mod.rs`: with a captured binding `two`, the body is
`yield_!(10 * two)`.  The capture is modelled as the parameter. -/
def multiply (two : Int) : Producer Int Unit Unit Unit where
  start := StepRes.yielded (10 * two) ()
  step := fun _ _ => StepRes.done ()

/-- A diagnostic producer for the resume-argument protocol (in the
spirit of the `check_numbers` doctest in `src/stack/mod.rs`): it
publishes `()` exactly `n` times and completes with the list of resume
arguments it observed, in the order it observed them. -/
def collectArgs (R : Type) (n : Nat) : Producer Unit R (List R) (Nat × List R) where
  start :=
    match n with
    | 0 => StepRes.done []
    | m + 1 => StepRes.yielded () (m, [])
  step := fun st r =>
    match st with
    | (0, acc) => StepRes.done (acc ++ [r])
    | (m + 1, acc) => StepRes.yielded () (m, acc ++ [r])

/- ## Run lemmas -/

/-- Advancing from a suspended state neither reads nor depends on the
resume slot. -/
theorem runOutcomes_slot_irrelevant (p : Producer Y R C σ) (core : GenCore σ)
    (s1 s2 : Option R) (args : List R) :
    Gen.runOutcomes ⟨p, s1, core⟩ args = Gen.runOutcomes ⟨p, s2, core⟩ args := by
  induction args generalizing core with
  | nil => rfl
  | cons a as ih =>
    cases core with
    | completed =>
      simp only [Gen.runOutcomes, Gen.advance]
      exact congrArg _ (ih GenCore.completed)
    | unstarted =>
      simp only [Gen.runOutcomes, Gen.advance]
    | suspended s =>
      simp only [Gen.runOutcomes, Gen.advance]

/-- Driving a suspended generator whose continuation yields `ys` and
then returns `c` (for every resume argument) produces exactly the
outcomes `Yielded y` for each `y` in `ys` followed by `Completed c`,
when given one resume argument per remaining step. -/
theorem runOutcomes_suspended (p : Producer Y R C σ) (slot : Option R) (s : σ)
    (ys : List Y) (c : C) (h : ∀ r : R, YieldsFrom p (p.step s r) ys c)
    (args : List R) (hlen : args.length = ys.length + 1) :
    Gen.runOutcomes ⟨p, slot, GenCore.suspended s⟩ args
      = ys.map ResumeOutcome.Yielded ++ [ResumeOutcome.Completed c] := by
  induction ys generalizing s slot args with
  | nil =>
    match args, hlen with
    | [a], _ =>
      have h' := h a
      generalize hp : p.step s a = t at h'
      cases h'
      simp [Gen.runOutcomes, Gen.advance, hp]
  | cons y ys ih =>
    match args, hlen with
    | a :: as, hlen =>
      have h' := h a
      generalize hp : p.step s a = t at h'
      cases h' with
      | @yielded y' s' ys' c' hk =>
        simp only [Gen.runOutcomes, Gen.advance, hp]
        have hlen' : as.length = ys.length + 1 := by
          simpa using hlen
        rw [ih none s' hk as hlen']
        simp

/-- The `numbers_then_string` producer yields `10, 20` and then
returns `"done!"`, whatever resume arguments it is given. -/
theorem numbers_then_string_yields :
    numbers_then_string.Yields [10, 20] "done!" :=
  YieldsFrom.yielded fun _ =>
    YieldsFrom.yielded fun _ => YieldsFrom.done

/-- C1: for every producer that yields a finite sequence
`v1, …, vn` and then returns a completion value `c`, the first `n`
resume calls return `Yielded(v1), …, Yielded(vn)` in that order and the
`(n+1)`th call returns `Complete(c)` — for any resume arguments. -/
theorem resume_yields_in_order (p : Producer Y R C σ) (vs : List Y) (c : C)
    (h : p.Yields vs c) (args : List R) (hlen : args.length = vs.length + 1) :
    (Gen.fresh p).runOutcomes args
      = vs.map ResumeOutcome.Yielded ++ [ResumeOutcome.Completed c] := by
  unfold Producer.Yields at h
  cases args with
  | nil => simp at hlen
  | cons a as =>
    generalize hp : p.start = t at h
    cases h with
    | done =>
      have : as = [] := by
        simpa using hlen
      subst this
      simp [Gen.runOutcomes, Gen.fresh, Gen.advance, hp]
    | @yielded y s ys c' hk =>
      simp only [Gen.runOutcomes, Gen.fresh, Gen.advance, hp]
      rw [runOutcomes_suspended p (some a) s ys c hk as (by simpa using hlen)]
      simp

/-- Witness for C1: the `numbers_then_string` doctest, driven with
three resume calls, yields `10`, `20` and completes with `"done!"`. -/
theorem resume_yields_in_order_witness :
    (Gen.fresh numbers_then_string).runOutcomes [(), (), ()]
      = [ResumeOutcome.Yielded 10, ResumeOutcome.Yielded 20,
         ResumeOutcome.Completed "done!"] :=
  resume_yields_in_order numbers_then_string [10, 20] "done!"
    numbers_then_string_yields [(), (), ()] (by decide)

/-- C2: once the engine state is `Completed`, any further `advance` or
`resume_with` reports `ResumedAfterCompletion` without touching the
producer (the generator is returned unchanged), and the outcome is
never a `Yielded` value. -/
theorem resume_after_completion_fails (g : Gen Y R C σ)
    (h : g.core = GenCore.completed) (a : R) :
    g.advance a = (ResumeOutcome.ResumedAfterCompletion, g) ∧
    g.resume_with a = (Except.error GenError.resumedAfterCompletion, g) ∧
    ∀ y : Y, (g.advance a).1 ≠ ResumeOutcome.Yielded y := by
  obtain ⟨p, slot, core⟩ := g
  cases h
  refine ⟨rfl, rfl, ?_⟩
  intro y
  simp [Gen.advance]

/-- Witness for C2: a concrete completed generator rejects a further
resume. -/
theorem resume_after_completion_fails_witness :
    (⟨multiply 2, none, GenCore.completed⟩ : Gen Int Unit Unit Unit).core
        = GenCore.completed ∧
    (⟨multiply 2, none, GenCore.completed⟩ : Gen Int Unit Unit Unit).advance ()
        = (ResumeOutcome.ResumedAfterCompletion,
           ⟨multiply 2, none, GenCore.completed⟩) :=
  ⟨rfl, (resume_after_completion_fails
      (⟨multiply 2, none, GenCore.completed⟩ : Gen Int Unit Unit Unit) rfl ()).1⟩

/-- Reduction of `collectArgs`' entry point when no yields remain. -/
theorem collectArgs_start_zero {R : Type} :
    (collectArgs R 0).start = StepRes.done [] := rfl

/-- Reduction of `collectArgs`' entry point with yields remaining. -/
theorem collectArgs_start_succ {R : Type} (m : Nat) :
    (collectArgs R (m + 1)).start = StepRes.yielded () (m, []) := rfl

/-- Reduction of `collectArgs`' step at its last suspension point. -/
theorem collectArgs_step_zero {R : Type} (n : Nat) (acc : List R) (r : R) :
    (collectArgs R n).step (0, acc) r = StepRes.done (acc ++ [r]) := rfl

/-- Reduction of `collectArgs`' step with yields remaining. -/
theorem collectArgs_step_succ {R : Type} (n m : Nat) (acc : List R) (r : R) :
    (collectArgs R n).step (m + 1, acc) r
      = StepRes.yielded () (m, acc ++ [r]) := rfl

/-- Running `collectArgs` from suspension state `(m, acc)` with `m + 1`
further resume arguments yields `()` another `m` times and completes
with the previously observed arguments followed by all the fresh
ones. -/
theorem collectArgs_run {R : Type} (n m : Nat) (acc : List R) (slot : Option R)
    (args : List R) (hlen : args.length = m + 1) :
    Gen.runOutcomes ⟨collectArgs R n, slot, GenCore.suspended (m, acc)⟩ args
      = List.replicate m (ResumeOutcome.Yielded ())
          ++ [ResumeOutcome.Completed (acc ++ args)] := by
  induction m generalizing acc slot args with
  | zero =>
    match args, hlen with
    | [a], _ =>
      simp [Gen.runOutcomes, Gen.advance, collectArgs_step_zero]
  | succ m ih =>
    match args, hlen with
    | a :: as, hlen =>
      have hl : as.length = m + 1 := by
        simpa using hlen
      simp only [Gen.runOutcomes, Gen.advance, collectArgs_step_succ]
      rw [ih (acc ++ [a]) none as hl]
      simp [List.replicate_succ]

/-- C3: the first resume argument is unobservable — the whole outcome
trace is unchanged if it is replaced by any other value — and a
producer that records the arguments returned from its `n` suspension
points sees exactly `a2, …, a(n+1)` of the supplied arguments
`a1, …, a(n+1)`: argument `a(k+1)` is observed at the `k`-th
suspension point, and `a1` is dropped. -/
theorem first_resume_arg_unobservable (p : Producer Y R C σ) (a b : R)
    (rest : List R) (n : Nat) (args : List R) (hlen : args.length = n + 1) :
    (Gen.fresh p).runOutcomes (a :: rest) = (Gen.fresh p).runOutcomes (b :: rest) ∧
    (Gen.fresh (collectArgs R n)).runOutcomes args
      = List.replicate n (ResumeOutcome.Yielded ())
          ++ [ResumeOutcome.Completed args.tail] := by
  constructor
  · simp only [Gen.runOutcomes, Gen.fresh, Gen.advance]
    cases hp : p.start with
    | yielded v s =>
      simpa using runOutcomes_slot_irrelevant p (GenCore.suspended s)
        (some a) (some b) rest
    | done c =>
      simpa using runOutcomes_slot_irrelevant p GenCore.completed
        (some a) (some b) rest
  · cases args with
    | nil => simp at hlen
    | cons a1 as =>
      have hl : as.length = n := by
        simpa using hlen
      cases n with
      | zero =>
        have : as = [] := List.length_eq_zero.mp hl
        subst this
        simp [Gen.runOutcomes, Gen.fresh, Gen.advance, collectArgs_start_zero]
      | succ m =>
        simp only [Gen.runOutcomes, Gen.fresh, Gen.advance, collectArgs_start_succ]
        rw [collectArgs_run (m + 1) m [] (some a1) as (by simpa using hl)]
        simp [List.replicate_succ]

/-- Witness for C3: with arguments `5, 1, 2` and `7, 1, 2` the traces
agree, and `collectArgs` over three resume calls observes `[1, 2]`,
dropping the first argument `0`. -/
theorem first_resume_arg_unobservable_witness :
    (Gen.fresh (collectArgs Nat 2)).runOutcomes [0, 1, 2]
      = List.replicate 2 (ResumeOutcome.Yielded ())
          ++ [ResumeOutcome.Completed ([0, 1, 2] : List Nat).tail] :=
  (first_resume_arg_unobservable (collectArgs Nat 2) 5 7 [1, 2] 2 [0, 1, 2]
    (by decide)).2

/-- Draining a suspended generator whose continuation yields `ys` and
then returns `()` produces exactly `ys` and leaves a completed
generator, given enough fuel. -/
theorem drain_suspended (p : Producer Y Unit Unit σ) (slot : Option Unit) (s : σ)
    (ys : List Y) (h : ∀ r : Unit, YieldsFrom p (p.step s r) ys ())
    (fuel : Nat) (hf : ys.length + 1 ≤ fuel) :
    Gen.drain fuel ⟨p, slot, GenCore.suspended s⟩
      = (ys, ⟨p, none, GenCore.completed⟩) := by
  induction ys generalizing slot s fuel with
  | nil =>
    match fuel, hf with
    | f + 1, _ =>
      have h' := h ()
      generalize hp : p.step s () = t at h'
      cases h'
      simp [Gen.drain, Gen.next, Gen.resume, Gen.resume_with, Gen.advance, hp]
  | cons y ys ih =>
    match fuel, hf with
    | f + 1, hf =>
      have h' := h ()
      generalize hp : p.step s () = t at h'
      cases h' with
      | @yielded y' s' ys' c' hk =>
        have hf' : ys.length + 1 ≤ f := by
          simpa using hf
        simp only [Gen.drain, Gen.next, Gen.resume, Gen.resume_with, Gen.advance, hp]
        rw [ih none s' hk f hf']

/-- C4: the Sequence Adapter over a producer with unit completion type
produces exactly the yielded values, in yield order, stopping at the
first `Complete(())`; afterwards the engine is `Completed` and a
further iteration step produces no element. -/
theorem iterator_produces_yields (p : Producer Y Unit Unit σ) (vs : List Y)
    (h : p.Yields vs ()) (fuel : Nat) (hf : vs.length + 1 ≤ fuel) :
    ((Gen.fresh p).drain fuel).1 = vs ∧
    ((Gen.fresh p).drain fuel).2.core = GenCore.completed ∧
    (((Gen.fresh p).drain fuel).2.next).1 = none := by
  unfold Producer.Yields at h
  match fuel, hf with
  | f + 1, hf =>
    generalize hp : p.start = t at h
    cases h with
    | done =>
      simp [Gen.drain, Gen.next, Gen.resume, Gen.resume_with, Gen.fresh,
        Gen.advance, hp]
    | @yielded y s ys c' hk =>
      have hf' : ys.length + 1 ≤ f := by
        simpa using hf
      simp only [Gen.drain, Gen.next, Gen.resume, Gen.resume_with, Gen.fresh,
        Gen.advance, hp]
      rw [drain_suspended p (some ()) s ys hk f hf']
      simp [Gen.next, Gen.resume, Gen.resume_with, Gen.advance]

/-- The `odds_under_ten` producer yields `1, 3, 5, 7, 9` and then
returns `()`. -/
theorem odds_under_ten_yields : odds_under_ten.Yields [1, 3, 5, 7, 9] () :=
  YieldsFrom.yielded fun _ => YieldsFrom.yielded fun _ =>
    YieldsFrom.yielded fun _ => YieldsFrom.yielded fun _ =>
      YieldsFrom.yielded fun _ => YieldsFrom.done

/-- Witness for C4: iterating the `odds_under_ten` doctest produces
exactly `[1, 3, 5, 7, 9]`, leaves the engine completed, and a further
iteration step yields nothing. -/
theorem iterator_produces_yields_witness :
    ((Gen.fresh odds_under_ten).drain 6).1 = [1, 3, 5, 7, 9] ∧
    ((Gen.fresh odds_under_ten).drain 6).2.core = GenCore.completed ∧
    (((Gen.fresh odds_under_ten).drain 6).2.next).1 = none :=
  iterator_produces_yields odds_under_ten [1, 3, 5, 7, 9]
    odds_under_ten_yields 6 (by decide)

/-- The externally observable engine state of a between-calls
generator (spec §3); `Running` never occurs here. -/
def GenCore.engineState : GenCore σ → EngineState
  | GenCore.unstarted => EngineState.Unstarted
  | GenCore.suspended _ => EngineState.Suspended
  | GenCore.completed => EngineState.Completed

/-- Modelled from the spec: the engine states traversed during one
`advance` call (spec §4.3).  From `Completed` the call fails in step 1
without entering `Running`; otherwise the engine sets `Running`
(step 3) and ends `Suspended` (step 4) or `Completed` (step 5). -/
def Gen.advanceTrace (g : Gen Y R C σ) (arg : R) : List EngineState :=
  match g.core with
  | GenCore.completed => [EngineState.Completed]
  | _ => [g.core.engineState, EngineState.Running,
          ((g.advance arg).2).core.engineState]

/-- The four legal transitions of the spec §3 state machine. -/
def allowedTransition : EngineState → EngineState → Bool
  | EngineState.Unstarted, EngineState.Running => true
  | EngineState.Running, EngineState.Suspended => true
  | EngineState.Suspended, EngineState.Running => true
  | EngineState.Running, EngineState.Completed => true
  | _, _ => false

/-- C6: during any `advance` call the engine states move only along
`Unstarted → Running`, `Running → Suspended`, `Suspended → Running`
and `Running → Completed`; `Completed` is terminal (an `advance` from
it changes nothing), and `Running` is never the state of a generator
between calls. -/
theorem engine_state_machine (g : Gen Y R C σ) (a : R) :
    List.Chain' (fun x y => allowedTransition x y = true) (g.advanceTrace a) ∧
    (g.core = GenCore.completed → (g.advance a).2 = g) ∧
    (g.advance a).2.core.engineState ≠ EngineState.Running ∧
    g.core.engineState ≠ EngineState.Running := by
  obtain ⟨p, slot, core⟩ := g
  cases core with
  | completed =>
    simp [Gen.advanceTrace, Gen.advance, GenCore.engineState]
  | unstarted =>
    cases hp : p.start with
    | yielded v s =>
      simp [Gen.advanceTrace, Gen.advance, GenCore.engineState, hp,
        allowedTransition]
    | done c =>
      simp [Gen.advanceTrace, Gen.advance, GenCore.engineState, hp,
        allowedTransition]
  | suspended s =>
    cases hp : p.step s a with
    | yielded v s' =>
      simp [Gen.advanceTrace, Gen.advance, GenCore.engineState, hp,
        allowedTransition]
    | done c =>
      simp [Gen.advanceTrace, Gen.advance, GenCore.engineState, hp,
        allowedTransition]

/-- C7: `resume()` is the same operation as `resume_with` applied to
the default resume argument: same public result, same successor
generator, from every generator state. -/
theorem resume_eq_resume_with_default [Inhabited R] (g : Gen Y R C σ) :
    g.resume = g.resume_with (default : R) := rfl

/-- An integer in the `i32` range is unchanged by `wrap32`. -/
theorem wrap32_eq_self (x : Int) (h1 : -2147483648 ≤ x) (h2 : x < 2147483648) :
    wrap32 x = x := by
  unfold wrap32
  omega

/-- Wrapping before an addition and after it give the same wrapped
result: `wrap32 x` is congruent to `x` modulo `2^32`. -/
theorem wrap32_add_left (x y : Int) :
    wrap32 (wrap32 x + y) = wrap32 (x + y) := by
  unfold wrap32
  omega

/-- Reduction of `multiples_of`'s entry point: `cur = num` and the
first yield publishes `num`. -/
theorem multiples_of_start (num : Int) :
    (multiples_of num).start = StepRes.yielded num num := rfl

/-- Reduction of `multiples_of`'s step: `cur += num` wraps in `i32`
and the producer yields again. -/
theorem multiples_of_step (num cur : Int) (r : Unit) :
    (multiples_of num).step cur r
      = StepRes.yielded (wrap32 (cur + num)) (wrap32 (cur + num)) := rfl

/-- Running `multiples_of num` from suspension state `cur` for `k`
further resume calls yields the `i32`-wrapped values of
`cur + num, cur + 2·num, …, cur + k·num` and never completes. -/
theorem multiples_of_run (num cur : Int) (slot : Option Unit) (k : Nat) :
    Gen.runOutcomes ⟨multiples_of num, slot, GenCore.suspended cur⟩
        (List.replicate k ())
      = (List.range k).map
          (fun (i : Nat) =>
            ResumeOutcome.Yielded (wrap32 (cur + ((i : Int) + 1) * num))) := by
  induction k generalizing cur slot with
  | zero => rfl
  | succ k ih =>
    simp only [List.replicate_succ, Gen.runOutcomes, Gen.advance, multiples_of_step]
    rw [ih (wrap32 (cur + num)) none]
    rw [List.range_succ_eq_map]
    simp only [List.map_cons, List.map_map]
    congr 1
    · norm_num
    · exact List.map_congr_left fun i hi => by
        simp only [Function.comp_apply]
        congr 1
        rw [wrap32_add_left]
        congr 1
        push_cast
        ring

/-- Counterexample for C9 as stated: with `num = 2^30` the second
resume call returns `Yielded(-2^31)` — the `i32`-wrapped sum — not
`Yielded(2 · 2^30) = Yielded(2^31)`: the `k`-th call does not return
`Yielded(k · num)` for every `k ≥ 1`. -/
theorem multiples_of_wrap_counterexample :
    (Gen.fresh (multiples_of 1073741824)).runOutcomes (List.replicate 2 ())
      = [ResumeOutcome.Yielded 1073741824, ResumeOutcome.Yielded (-2147483648)] ∧
    ResumeOutcome.Yielded (Y := Int) (C := Unit) (-2147483648)
      ≠ ResumeOutcome.Yielded (2 * 1073741824) := by
  constructor
  · decide
  · decide

/-- C9 (amended): the infinite producer `multiples_of num` yields on
every resume call and never completes, and for every `i32` argument
`num` the `k`-th resume call returns `Yielded` of `k · num` computed
in wrapping `i32` arithmetic — so exactly `Yielded(k · num)` while
`k · num` stays within the `i32` range. -/
theorem multiples_of_wrapping (num : Int)
    (h1 : -2147483648 ≤ num) (h2 : num < 2147483648) (k : Nat) :
    (Gen.fresh (multiples_of num)).runOutcomes (List.replicate k ())
      = (List.range k).map
          (fun (i : Nat) => ResumeOutcome.Yielded (wrap32 (((i : Int) + 1) * num))) := by
  cases k with
  | zero => rfl
  | succ k =>
    simp only [List.replicate_succ, Gen.runOutcomes, Gen.fresh, Gen.advance,
      multiples_of_start]
    rw [multiples_of_run num num (some ()) k]
    rw [List.range_succ_eq_map]
    simp only [List.map_cons, List.map_map]
    congr 1
    · rw [show ((0 : Nat) : Int) + 1 = 1 by norm_num, one_mul,
        wrap32_eq_self num h1 h2]
    · exact List.map_congr_left fun i hi => by
        simp only [Function.comp_apply]
        congr 1
        rw [← wrap32_add_left num (((i : Int) + 1) * num)]
        rw [wrap32_eq_self num h1 h2]
        congr 1
        push_cast
        ring

/-- Witness for C9 (amended): the doctest instance `num = 10` — three
resume calls yield `10, 20, 30`, matching the assertions in
`src/stack/mod.rs`. -/
theorem multiples_of_wrapping_witness :
    (Gen.fresh (multiples_of 10)).runOutcomes (List.replicate 3 ())
      = [ResumeOutcome.Yielded 10, ResumeOutcome.Yielded 20,
         ResumeOutcome.Yielded 30] :=
  (multiples_of_wrapping 10 (by decide) (by decide) 3).trans (by decide)

/-- C10: a producer body observes values captured from its enclosing
scope at creation time: for any captured `two`, the generator whose
body is `yield_!(10 * two)` first returns `Yielded(10 * two)`; with
`two = 2` the first resume returns `GeneratorState::Yielded(20)`. -/
theorem multiply_observes_capture (two : Int) :
    ((Gen.fresh (multiply two)).resume).1
        = Except.ok (GeneratorState.Yielded (10 * two)) ∧
    ((Gen.fresh (multiply 2)).resume).1
        = Except.ok (GeneratorState.Yielded 20) :=
  ⟨rfl, by norm_num [Gen.fresh, Gen.resume, Gen.resume_with, Gen.advance, multiply]⟩
